import Mathlib

/-!
Shallow embedding of the two Netbox automation scripts of this
repository, `scripts/interface_update.py` (class `InterfaceUpdate`) and
`scripts/cable_update.py` (class `CableUpdate`).

The inventory store (the Netbox ORM) is modelled by explicit lists of
devices, interfaces and cables.  The live snapshots obtained through
NAPALM (`get_interfaces`, `get_lldp_neighbors`) are inputs.  Fallible
steps that the scripts do not catch (Django `MultipleObjectsReturned`,
a dangling foreign key, an empty LLDP neighbour list hit by the `[0]`
index) make a run return `none`, matching the fatal-abort behaviour.
The Python `re.match` call is an external engine and is modelled as an
opaque boolean function argument `rmatch`.
-/

/-- A Netbox device (`dcim.models.Device`): primary key and name. -/
structure Device where
  id : Nat
  name : String
deriving Repr, DecidableEq

/-- A Netbox interface (`dcim.models.Interface`): primary key, device
foreign key, name, description, optional MAC address and type. -/
structure Interface where
  id : Nat
  deviceId : Nat
  name : String
  description : String
  macAddress : Option String
  type : String
deriving Repr, DecidableEq

/-- A Netbox cable (`dcim.models.Cable`) between two interface
terminations (`termination_a_id` and `termination_b_id`). -/
structure Cable where
  id : Nat
  aId : Nat
  bId : Nat
deriving Repr, DecidableEq

/-- One entry of the NAPALM `get_interfaces` snapshot: the dict key and
the `description` / `mac_address` fields read by the script. -/
structure SnapEntry where
  name : String
  description : String
  macAddress : String
deriving Repr, DecidableEq

/-- One remote endpoint reported by LLDP: the `hostname` and `port`
fields of a `get_lldp_neighbors` list element. -/
structure Neighbor where
  hostname : String
  port : String
deriving Repr, DecidableEq

/-- One entry of the NAPALM `get_lldp_neighbors` mapping: a local
interface name and the list of reported remote endpoints (the script
reads element `[0]`). -/
structure NeighborEntry where
  localIface : String
  neighbors : List Neighbor
deriving Repr, DecidableEq

/-- Log lines emitted through `log_warning` / `log_info` /
`log_success`, abstracted to their kind and payload. -/
inductive Note where
  | createdInterface (dev iface : String)
  | updatedInterface (dev iface oldDesc newDesc : String)
  | warnLocalMissing (dev iface : String)
  | infoRemoteDevMissing (dev rdev rport : String)
  | infoRemoteIfaceMissing (dev rdev rport : String)
  | deletedStaleCable (dev lname ldev pname pdev : String)
  | createdCable (dev lname ldev rname rdev : String)
  | deletedOldCable (dev : String) (aName bName : Option String)
deriving Repr, DecidableEq

/-- Result of a Django `objects.get(...)` call: `missing` raises
`DoesNotExist` (caught by the scripts) and `multiple` raises
`MultipleObjectsReturned` (uncaught, hence fatal). -/
inductive Lookup (α : Type) where
  | missing
  | found (a : α)
  | multiple
deriving Repr, DecidableEq

/-- Django `objects.get` over a list: the unique match, or an
exception marker. -/
def getUnique (p : α → Bool) (l : List α) : Lookup α :=
  match l.filter p with
  | [] => .missing
  | [a] => .found a
  | _ => .multiple

/-- Value of `InterfaceTypeChoices.TYPE_OTHER`, the type given to every
interface the interface script creates. -/
def TYPE_OTHER : String := "other"

/-- MAC-address normalisation from `InterfaceUpdate.run`: the source
combines the three comparisons with `and`, exactly as written. -/
def normalizeMac (mac : String) : Option String :=
  if mac == "None" && mac == "Unspecified" && mac == "" then none
  else some mac

/-- The interface blacklist test of `InterfaceUpdate.run`:
`data["ignore_interfaces"] != "" and re.match(pattern, name)`. -/
def ignoredBy (rmatch : String → String → Bool) (pat : String) (nm : String) : Bool :=
  (pat != "") && rmatch pat nm

/-- Filter used by `Interface.objects.get(device=did, name=nm)` and by
the `get_or_create` call (whose queryset is pre-filtered by device). -/
def localKey (did : Nat) (nm : String) (i : Interface) : Bool :=
  i.deviceId == did && i.name == nm

/-- Filter used by `Device.objects.get(name=nm)`. -/
def deviceKey (nm : String) (dv : Device) : Bool :=
  dv.name == nm

/-- State of one `InterfaceUpdate` run: the interface table, the next
autoincrement primary key, and the log lines emitted so far. -/
structure ISt where
  interfaces : List Interface
  nextId : Nat
  notes : List Note
deriving Repr, DecidableEq

/-- One iteration of the `for napalm_interface in napalm_interfaces`
loop of `InterfaceUpdate.run`: ignore filter, MAC normalisation,
`get_or_create`, then the created / description-update branches. -/
def processIface (rmatch : String → String → Bool) (pat : String) (d : Device)
    (st : ISt) (e : SnapEntry) : Option ISt :=
  if ignoredBy rmatch pat e.name then some st
  else
    let napalmDesc := e.description
    let mac := normalizeMac e.macAddress
    match getUnique (localKey d.id e.name) st.interfaces with
    | .multiple => none
    | .missing =>
        some { interfaces := st.interfaces ++
                 [{ id := st.nextId, deviceId := d.id, name := e.name,
                    description := napalmDesc, macAddress := mac, type := TYPE_OTHER }]
               nextId := st.nextId + 1
               notes := st.notes ++ [.createdInterface d.name e.name] }
    | .found i =>
        if i.description != napalmDesc then
          some { st with
                 interfaces := st.interfaces.map (fun j =>
                   if j.id == i.id then { j with description := napalmDesc } else j)
                 notes := st.notes ++
                   [.updatedInterface d.name e.name i.description napalmDesc] }
        else some st

/-- The whole snapshot loop of `InterfaceUpdate.run` for one device. -/
def processSnap (rmatch : String → String → Bool) (pat : String) (d : Device) :
    ISt → List SnapEntry → Option ISt
  | st, [] => some st
  | st, e :: es =>
    match processIface rmatch pat d st e with
    | none => none
    | some st₁ => processSnap rmatch pat d st₁ es

/-- The device loop of `InterfaceUpdate.run`: each job pairs a selected
device with its live `get_interfaces` snapshot. -/
def runInterfaces (rmatch : String → String → Bool) (pat : String) :
    ISt → List (Device × List SnapEntry) → Option ISt
  | st, [] => some st
  | st, (d, snap) :: jobs =>
    match processSnap rmatch pat d st snap with
    | none => none
    | some st₁ => runInterfaces rmatch pat st₁ jobs

/-- Dereference of `interface.cable`: the cable one of whose
terminations is the interface (unique in a well-formed store). -/
def cableOf (cables : List Cable) (iid : Nat) : Option Cable :=
  cables.find? fun c => c.aId == iid || c.bId == iid

/-- Dereference of `interface._cable_peer`: the interface at the other
termination of the cable. -/
def cablePeer (interfaces : List Interface) (c : Cable) (i : Interface) : Option Interface :=
  let otherId := if c.aId == i.id then c.bId else c.aId
  interfaces.find? fun j => j.id == otherId

/-- Foreign-key dereference `interface.device`. -/
def deviceOf (devices : List Device) (did : Nat) : Option Device :=
  devices.find? fun dv => dv.id == did

/-- State of one `CableUpdate` run: the cable table, the next
autoincrement primary key, the log lines, and the accumulator
`lldp_interface_names` of the current device iteration. -/
structure CSt where
  cables : List Cable
  nextCableId : Nat
  notes : List Note
  names : List String
deriving Repr, DecidableEq

/-- Steps 8 to 10 of `CableUpdate.run` for one neighbour entry: resolve
the remote device and interface, then delete the cable marked stale (if
any) and create the new cable.  `stale` carries the mismatched cable
together with its peer interface and peer device, which the deletion
log line prints. -/
def recable (devices : List Device) (interfaces : List Interface) (warn : Bool)
    (d : Device) (st : CSt) (names : List String) (li : Interface)
    (stale : Option (Cable × Interface × Device)) (r : Neighbor) : Option CSt :=
  match getUnique (deviceKey r.hostname) devices with
  | .multiple => none
  | .missing =>
      some { st with
             names := names
             notes := if warn then st.notes ++ [.infoRemoteDevMissing d.name r.hostname r.port]
                      else st.notes }
  | .found rd =>
    match getUnique (localKey rd.id r.port) interfaces with
    | .multiple => none
    | .missing =>
        some { st with
               names := names
               notes := if warn then st.notes ++ [.infoRemoteIfaceMissing d.name r.hostname r.port]
                        else st.notes }
    | .found ri =>
      let cables₁ := match stale with
        | some (c, _, _) => st.cables.filter fun c2 => c2.id != c.id
        | none => st.cables
      let notes₁ := match stale with
        | some (_, p, pd) =>
            st.notes ++ [.deletedStaleCable d.name li.name d.name p.name pd.name]
        | none => st.notes
      some { cables := cables₁ ++ [{ id := st.nextCableId, aId := li.id, bId := ri.id }]
             nextCableId := st.nextCableId + 1
             notes := notes₁ ++ [.createdCable d.name li.name d.name ri.name rd.name]
             names := names }

/-- One iteration of the neighbour loop of `CableUpdate.run`: read the
first reported remote, record the local name, resolve the local
interface, compare an existing cable against the report, and hand over
to `recable`. -/
def processEntry (devices : List Device) (interfaces : List Interface) (warn : Bool)
    (d : Device) (st : CSt) (e : NeighborEntry) : Option CSt :=
  match e.neighbors with
  | [] => none
  | r :: _ =>
    let names := st.names ++ [e.localIface]
    match getUnique (localKey d.id e.localIface) interfaces with
    | .multiple => none
    | .missing =>
        some { st with
               names := names
               notes := if warn then st.notes ++ [.warnLocalMissing d.name e.localIface]
                        else st.notes }
    | .found li =>
      match cableOf st.cables li.id with
      | none => recable devices interfaces warn d st names li none r
      | some c =>
        match cablePeer interfaces c li with
        | none => none
        | some p =>
          match deviceOf devices p.deviceId with
          | none => none
          | some pd =>
            if p.name == r.port && pd.name == r.hostname then
              some { st with names := names }
            else
              recable devices interfaces warn d st names li (some (c, p, pd)) r

/-- The whole neighbour loop of `CableUpdate.run` for one device. -/
def processEntries (devices : List Device) (interfaces : List Interface) (warn : Bool)
    (d : Device) : CSt → List NeighborEntry → Option CSt
  | st, [] => some st
  | st, e :: es =>
    match processEntry devices interfaces warn d st e with
    | none => none
    | some st₁ => processEntries devices interfaces warn d st₁ es

/-- Name printed for a cable termination in the cleanup log line
(`old_cable.termination_a.name`); dangling ids give `none`. -/
def termName (interfaces : List Interface) (tid : Nat) : Option String :=
  (interfaces.find? fun i => i.id == tid).map (·.name)

/-- The queryset of `CableUpdate.remove_old_cables`: interfaces of the
device that have a cable and whose name is not among the LLDP-reported
local names, paired with the cable their foreign key captured when the
queryset was evaluated. -/
def staleList (interfaces : List Interface) (d : Device) (st : CSt) :
    List (Interface × Cable) :=
  interfaces.filterMap fun i =>
    if i.deviceId == d.id && !(st.names.contains i.name) then
      (cableOf st.cables i.id).map fun c => (i, c)
    else none

/-- The deletion loop of `remove_old_cables`: refetch the cable by
primary key, skip silently when it is already gone, otherwise delete it
and log. -/
def cleanupLoop (interfaces : List Interface) (d : Device) :
    List (Interface × Cable) → CSt → CSt
  | [], st => st
  | (_, c) :: rest, st =>
    if st.cables.any fun c2 => c2.id == c.id then
      cleanupLoop interfaces d rest
        { st with
          cables := st.cables.filter (fun c2 => c2.id != c.id)
          notes := st.notes ++
            [.deletedOldCable d.name (termName interfaces c.aId) (termName interfaces c.bId)] }
    else
      cleanupLoop interfaces d rest st

/-- `CableUpdate.remove_old_cables` for one device. -/
def removeOldCables (interfaces : List Interface) (d : Device) (st : CSt) : CSt :=
  cleanupLoop interfaces d (staleList interfaces d st) st

/-- One device iteration of `CableUpdate.run`: reset
`lldp_interface_names`, process every neighbour entry, then run the
cleanup pass. -/
def runDevice (devices : List Device) (interfaces : List Interface) (warn : Bool)
    (st : CSt) (d : Device) (es : List NeighborEntry) : Option CSt :=
  match processEntries devices interfaces warn d { st with names := [] } es with
  | none => none
  | some st₁ => some (removeOldCables interfaces d st₁)

/-- The device loop of `CableUpdate.run`: each job pairs a selected
device with its live `get_lldp_neighbors` report. -/
def runCable (devices : List Device) (interfaces : List Interface) (warn : Bool) :
    CSt → List (Device × List NeighborEntry) → Option CSt
  | st, [] => some st
  | st, (d, es) :: jobs =>
    match runDevice devices interfaces warn st d es with
    | none => none
    | some st₁ => runCable devices interfaces warn st₁ jobs

/-- Pair tracked by the Netbox unique constraint on interfaces. -/
def pairKey (i : Interface) : Nat × String :=
  (i.deviceId, i.name)

/-- Well-formedness of the interface table as Django guarantees it:
primary keys are distinct and below the autoincrement counter, and the
(device, name) unique constraint holds. -/
def IStWF (st : ISt) : Prop :=
  (∀ i ∈ st.interfaces, i.id < st.nextId) ∧
  (st.interfaces.map Interface.id).Nodup ∧
  (st.interfaces.map pairKey).Nodup

/-- The interface record for device `d` and snapshot entry `e` exists
and its description already agrees with the live description. -/
def descOk (ifs : List Interface) (d : Device) (e : SnapEntry) : Prop :=
  ∃ i ∈ ifs, i.deviceId = d.id ∧ i.name = e.name ∧ i.description = e.description

/-- Every interface of `ifs` survives into `ifs2` with identity, device,
name, type and MAC address intact. -/
def Preserved (ifs ifs2 : List Interface) : Prop :=
  ∀ j ∈ ifs, ∃ j2 ∈ ifs2, j2.id = j.id ∧ j2.deviceId = j.deviceId ∧
    j2.name = j.name ∧ j2.type = j.type ∧ j2.macAddress = j.macAddress

/-- All fields of an interface except the primary key. -/
def ifaceData (i : Interface) : Nat × String × String × Option String × String :=
  (i.deviceId, i.name, i.description, i.macAddress, i.type)

/-- Field-level contract of the description-update branch: all fields
equal except that the interface with the looked-up primary key gets the
live description. -/
def updFrame (iid : Nat) (desc : String) (j j2 : Interface) : Prop :=
  j2.id = j.id ∧ j2.deviceId = j.deviceId ∧ j2.name = j.name ∧
  j2.type = j.type ∧ j2.macAddress = j.macAddress ∧
  (j.id = iid → j2.description = desc) ∧ (j.id ≠ iid → j2.description = j.description)

/-- Recogniser for description-update notifications. -/
def isUpdatedNote : Note → Bool
  | .updatedInterface _ _ _ _ => true
  | _ => false

/-- Two cables share no termination. -/
def disjointEnds (c₁ c₂ : Cable) : Prop :=
  c₁.aId ≠ c₂.aId ∧ c₁.aId ≠ c₂.bId ∧ c₁.bId ≠ c₂.aId ∧ c₁.bId ≠ c₂.bId

/-- The one-cable-per-interface invariant of the data model: no two
cables of the store share a termination. -/
def OneCableInv (cables : List Cable) : Prop :=
  cables.Pairwise disjointEnds

instance : DecidableRel disjointEnds := fun c₁ c₂ =>
  inferInstanceAs (Decidable (c₁.aId ≠ c₂.aId ∧ c₁.aId ≠ c₂.bId ∧ c₁.bId ≠ c₂.aId ∧ c₁.bId ≠ c₂.bId))

instance : DecidablePred OneCableInv := fun l =>
  inferInstanceAs (Decidable (l.Pairwise disjointEnds))

theorem ignoredBy_empty (rmatch : String → String → Bool) (nm : String) :
    ignoredBy rmatch "" nm = false := by
  simp [ignoredBy]

theorem processIface_rmatch_irrel (rm₁ rm₂ : String → String → Bool) (d : Device)
    (st : ISt) (e : SnapEntry) :
    processIface rm₁ "" d st e = processIface rm₂ "" d st e := by
  unfold processIface
  rw [ignoredBy_empty, ignoredBy_empty]

theorem processSnap_rmatch_irrel (rm₁ rm₂ : String → String → Bool) (d : Device) :
    ∀ (snap : List SnapEntry) (st : ISt),
      processSnap rm₁ "" d st snap = processSnap rm₂ "" d st snap := by
  intro snap
  induction snap with
  | nil => intro st; rfl
  | cons e es ih =>
      intro st
      unfold processSnap
      rw [processIface_rmatch_irrel rm₁ rm₂ d st e]
      cases processIface rm₂ "" d st e with
      | none => rfl
      | some st₁ => exact ih st₁

theorem runInterfaces_rmatch_irrel (rm₁ rm₂ : String → String → Bool) :
    ∀ (jobs : List (Device × List SnapEntry)) (st : ISt),
      runInterfaces rm₁ "" st jobs = runInterfaces rm₂ "" st jobs := by
  intro jobs
  induction jobs with
  | nil => intro st; rfl
  | cons j jobs ih =>
      intro st
      obtain ⟨d, snap⟩ := j
      unfold runInterfaces
      rw [processSnap_rmatch_irrel rm₁ rm₂ d snap st]
      cases processSnap rm₂ "" d st snap with
      | none => rfl
      | some st₁ => exact ih st₁

theorem mac_cond_false (mac : String) :
    (mac == "None" && mac == "Unspecified" && mac == "") = false := by
  by_cases hm : mac = "None"
  · subst hm; decide
  · have hb : (mac == "None") = false := by
      simp [hm]
    simp [hb]

theorem normalizeMac_id (mac : String) : normalizeMac mac = some mac := by
  simp [normalizeMac, mac_cond_false mac]

/-- C2: MAC-address normalisation in the interface reconciler never
triggers.  The three comparisons are combined with logical AND and can
never hold simultaneously, so for every snapshot value the stored MAC
is the snapshot value unchanged and the null branch is unreachable. -/
theorem c2_mac_normalization_never_triggers (mac : String) :
    (mac == "None" && mac == "Unspecified" && mac == "") = false ∧
    normalizeMac mac = some mac :=
  ⟨mac_cond_false mac, normalizeMac_id mac⟩

/-- C10: when the ignore-interfaces pattern is the empty string the
ignore filter skips nothing: the blacklist test is false for every
interface name, and a whole run never consults the regex engine, so its
result is independent of the matcher. -/
theorem c10_empty_ignore_pattern_skips_nothing :
    (∀ (rmatch : String → String → Bool) (nm : String), ignoredBy rmatch "" nm = false) ∧
    (∀ (rm₁ rm₂ : String → String → Bool) (st : ISt) (jobs : List (Device × List SnapEntry)),
      runInterfaces rm₁ "" st jobs = runInterfaces rm₂ "" st jobs) :=
  ⟨ignoredBy_empty, fun rm₁ rm₂ st jobs => runInterfaces_rmatch_irrel rm₁ rm₂ jobs st⟩

/-- C1: the cable-per-interface invariant is violated by the code.  On
this store the invariant holds before the run, device D reports its
interface L connected to interface R of device E, and R already holds a
cable to interface X of device F.  The run resolves R, never checks the
cable already attached to R, and creates a second cable onto R: after
the run R participates in two cables. -/
theorem c1_cable_invariant_violated_at_remote_end :
    OneCableInv [⟨10, 2, 3⟩] ∧
    runCable [⟨1, "D"⟩, ⟨2, "E"⟩, ⟨3, "F"⟩]
      [⟨1, 1, "L", "", none, TYPE_OTHER⟩, ⟨2, 2, "R", "", none, TYPE_OTHER⟩,
       ⟨3, 3, "X", "", none, TYPE_OTHER⟩] false
      ⟨[⟨10, 2, 3⟩], 11, [], []⟩ [(⟨1, "D"⟩, [⟨"L", [⟨"E", "R"⟩]⟩])] =
      some ⟨[⟨10, 2, 3⟩, ⟨11, 1, 2⟩], 12, [.createdCable "D" "L" "D" "R" "E"], ["L"]⟩ ∧
    ([⟨10, 2, 3⟩, ⟨11, 1, 2⟩] : List Cable).countP (fun c => c.aId == 2 || c.bId == 2) = 2 ∧
    ¬ OneCableInv [⟨10, 2, 3⟩, ⟨11, 1, 2⟩] := by
  refine ⟨by decide, by decide, by decide, by decide⟩

/-- C3: a neighbour entry whose local interface resolves, already has a
cable whose far end differs from the live-reported remote, and whose
remote device and interface both resolve, has the old cable deleted and
a new cable created between the local and remote interface, with
exactly two notifications appended, the deletion before the creation. -/
theorem c3_mismatched_cable_is_replaced
    (devices : List Device) (interfaces : List Interface) (warn : Bool)
    (d : Device) (st : CSt) (e : NeighborEntry) (r : Neighbor) (rs : List Neighbor)
    (li p ri : Interface) (c : Cable) (pd rd : Device)
    (hn : e.neighbors = r :: rs)
    (hli : getUnique (localKey d.id e.localIface) interfaces = .found li)
    (hc : cableOf st.cables li.id = some c)
    (hp : cablePeer interfaces c li = some p)
    (hpd : deviceOf devices p.deviceId = some pd)
    (hne : ¬(p.name = r.port ∧ pd.name = r.hostname))
    (hrd : getUnique (deviceKey r.hostname) devices = .found rd)
    (hri : getUnique (localKey rd.id r.port) interfaces = .found ri) :
    processEntry devices interfaces warn d st e =
      some { cables := (st.cables.filter fun c2 => c2.id != c.id) ++
               [{ id := st.nextCableId, aId := li.id, bId := ri.id }]
             nextCableId := st.nextCableId + 1
             notes := st.notes ++
               [.deletedStaleCable d.name li.name d.name p.name pd.name,
                .createdCable d.name li.name d.name ri.name rd.name]
             names := st.names ++ [e.localIface] } := by
  have hb : (p.name == r.port && pd.name == r.hostname) = false := by
    rcases Bool.eq_false_or_eq_true (p.name == r.port && pd.name == r.hostname) with h | h
    · rw [Bool.and_eq_true, beq_iff_eq, beq_iff_eq] at h
      exact absurd h hne
    · exact h
  unfold processEntry
  simp only [hn, hli, hc, hp, hpd, hb]
  unfold recable
  simp only [hrd, hri]
  simp

theorem recable_unresolved (devices : List Device) (interfaces : List Interface)
    (d : Device) (st : CSt) (names : List String) (li : Interface)
    (stale : Option (Cable × Interface × Device)) (r : Neighbor)
    (hrem : getUnique (deviceKey r.hostname) devices = .missing ∨
      ∃ rd, getUnique (deviceKey r.hostname) devices = .found rd ∧
        getUnique (localKey rd.id r.port) interfaces = .missing) :
    recable devices interfaces false d st names li stale r =
      some { st with names := names } := by
  rcases hrem with h | ⟨rd, h1, h2⟩
  · unfold recable
    simp only [h]
    simp
  · unfold recable
    simp only [h1, h2]
    simp

/-- C4: a neighbour entry whose remote device or remote interface does
not resolve is skipped with no mutation: the cable store is unchanged
(in particular a cable marked stale in step 2 is left undeleted), with
the warning flag false no notification is emitted, and processing
continues with the next entry. -/
theorem c4_unresolved_remote_entry_skipped
    (devices : List Device) (interfaces : List Interface)
    (d : Device) (st : CSt) (e : NeighborEntry) (r : Neighbor) (rs : List Neighbor)
    (li : Interface)
    (hn : e.neighbors = r :: rs)
    (hli : getUnique (localKey d.id e.localIface) interfaces = .found li)
    (hcab : cableOf st.cables li.id = none ∨
      ∃ c p pd, cableOf st.cables li.id = some c ∧ cablePeer interfaces c li = some p ∧
        deviceOf devices p.deviceId = some pd ∧ ¬(p.name = r.port ∧ pd.name = r.hostname))
    (hrem : getUnique (deviceKey r.hostname) devices = .missing ∨
      ∃ rd, getUnique (deviceKey r.hostname) devices = .found rd ∧
        getUnique (localKey rd.id r.port) interfaces = .missing) :
    processEntry devices interfaces false d st e =
      some { st with names := st.names ++ [e.localIface] } ∧
    ∀ es, processEntries devices interfaces false d st (e :: es) =
      processEntries devices interfaces false d
        { st with names := st.names ++ [e.localIface] } es := by
  have hmain : processEntry devices interfaces false d st e =
      some { st with names := st.names ++ [e.localIface] } := by
    rcases hcab with hnone | ⟨c, p, pd, hc, hp, hpd, hne⟩
    · unfold processEntry
      simp only [hn, hli, hnone]
      exact recable_unresolved devices interfaces d st _ li none r hrem
    · have hb : (p.name == r.port && pd.name == r.hostname) = false := by
        rcases Bool.eq_false_or_eq_true (p.name == r.port && pd.name == r.hostname) with h | h
        · rw [Bool.and_eq_true, beq_iff_eq, beq_iff_eq] at h
          exact absurd h hne
        · exact h
      unfold processEntry
      simp only [hn, hli, hc, hp, hpd, hb]
      exact recable_unresolved devices interfaces d st _ li (some (c, p, pd)) r hrem
  refine ⟨hmain, fun es => ?_⟩
  conv_lhs => unfold processEntries
  rw [hmain]

/-- Witness for C3 at a concrete store: device D has eth0 cabled to
interface eth1 of device E, the report says eth0 connects to eth2 of
device F, and both resolve; the old cable is deleted and the new one
created, with the two notifications in order. -/
theorem c3_witness :
    processEntry [⟨1, "D"⟩, ⟨2, "E"⟩, ⟨3, "F"⟩]
      [⟨1, 1, "eth0", "", none, TYPE_OTHER⟩, ⟨2, 2, "eth1", "", none, TYPE_OTHER⟩,
       ⟨3, 3, "eth2", "", none, TYPE_OTHER⟩] false ⟨1, "D"⟩
      ⟨[⟨10, 1, 2⟩], 20, [], []⟩ ⟨"eth0", [⟨"F", "eth2"⟩]⟩ =
      some ⟨[⟨20, 1, 3⟩], 21,
        [.deletedStaleCable "D" "eth0" "D" "eth1" "E",
         .createdCable "D" "eth0" "D" "eth2" "F"], ["eth0"]⟩ :=
  (c3_mismatched_cable_is_replaced
    [⟨1, "D"⟩, ⟨2, "E"⟩, ⟨3, "F"⟩]
    [⟨1, 1, "eth0", "", none, TYPE_OTHER⟩, ⟨2, 2, "eth1", "", none, TYPE_OTHER⟩,
     ⟨3, 3, "eth2", "", none, TYPE_OTHER⟩] false ⟨1, "D"⟩
    ⟨[⟨10, 1, 2⟩], 20, [], []⟩ ⟨"eth0", [⟨"F", "eth2"⟩]⟩
    ⟨"F", "eth2"⟩ [] ⟨1, 1, "eth0", "", none, TYPE_OTHER⟩
    ⟨2, 2, "eth1", "", none, TYPE_OTHER⟩ ⟨3, 3, "eth2", "", none, TYPE_OTHER⟩
    ⟨10, 1, 2⟩ ⟨2, "E"⟩ ⟨3, "F"⟩
    rfl (by decide) (by decide) (by decide) (by decide) (by decide)
    (by decide) (by decide)).trans (by decide)

/-- Witness for C4 at a concrete store: the reported remote device X
does not exist; the entry is skipped with no notification and no
mutation, and the loop continues. -/
theorem c4_witness :
    processEntry [⟨1, "D"⟩] [⟨1, 1, "eth0", "", none, TYPE_OTHER⟩] false ⟨1, "D"⟩
      ⟨[], 5, [], []⟩ ⟨"eth0", [⟨"X", "Y"⟩]⟩ = some ⟨[], 5, [], ["eth0"]⟩ ∧
    processEntries [⟨1, "D"⟩] [⟨1, 1, "eth0", "", none, TYPE_OTHER⟩] false ⟨1, "D"⟩
      ⟨[], 5, [], []⟩ [⟨"eth0", [⟨"X", "Y"⟩]⟩] =
      processEntries [⟨1, "D"⟩] [⟨1, 1, "eth0", "", none, TYPE_OTHER⟩] false ⟨1, "D"⟩
        ⟨[], 5, [], ["eth0"]⟩ [] := by
  have h := c4_unresolved_remote_entry_skipped [⟨1, "D"⟩]
    [⟨1, 1, "eth0", "", none, TYPE_OTHER⟩] ⟨1, "D"⟩ ⟨[], 5, [], []⟩
    ⟨"eth0", [⟨"X", "Y"⟩]⟩ ⟨"X", "Y"⟩ [] ⟨1, 1, "eth0", "", none, TYPE_OTHER⟩
    rfl (by decide) (Or.inl (by decide)) (Or.inl (by decide))
  exact ⟨h.1, h.2 []⟩

theorem natBeqComm (a b : Nat) : (a == b) = (b == a) := by
  by_cases h : a = b
  · subst h; rfl
  · have h2 : b ≠ a := fun hh => h hh.symm
    simp [h, h2]

theorem cleanupLoop_cables (interfaces : List Interface) (d : Device) :
    ∀ (l : List (Interface × Cable)) (st : CSt),
      (cleanupLoop interfaces d l st).cables =
        st.cables.filter fun cb => !(l.any fun x => x.2.id == cb.id) := by
  intro l
  induction l with
  | nil =>
      intro st
      simp [cleanupLoop]
  | cons x rest ih =>
      intro st
      obtain ⟨i, c⟩ := x
      unfold cleanupLoop
      by_cases hpres : (st.cables.any fun c2 => c2.id == c.id) = true
      · rw [if_pos hpres, ih, List.filter_filter]
        apply List.filter_congr
        intro cb hcb
        simp only [List.any_cons, Bool.not_or, bne]
        rw [natBeqComm c.id cb.id, Bool.and_comm]
      · rw [if_neg hpres, ih]
        apply List.filter_congr
        intro cb hcb
        have hb : (cb.id == c.id) = false := by
          cases hb : (cb.id == c.id) with
          | false => rfl
          | true => exact absurd (List.any_eq_true.mpr ⟨cb, hcb, hb⟩) hpres
        simp only [List.any_cons, Bool.not_or]
        rw [natBeqComm c.id cb.id, hb]
        simp

theorem filter_ne_id_length (cid : Nat) :
    ∀ (L : List Cable), (L.map Cable.id).Nodup →
      (L.any fun c2 => c2.id == cid) = true →
      (L.filter fun c2 => c2.id != cid).length + 1 = L.length := by
  intro L
  induction L with
  | nil => intro _ h; simp at h
  | cons a L ih =>
      intro hnd hany
      rw [List.map_cons, List.nodup_cons] at hnd
      cases hb : (a.id == cid) with
      | true =>
          have ha : a.id = cid := by simpa using hb
          have hall : ∀ x ∈ L, (x.id != cid) = true := by
            intro x hx
            have hxne : x.id ≠ cid := by
              intro hxe
              have hxm : x.id ∈ List.map Cable.id L := List.mem_map_of_mem Cable.id hx
              rw [hxe, ← ha] at hxm
              exact hnd.1 hxm
            simpa using hxne
          rw [List.filter_cons, if_neg (by simp [bne, hb]), List.filter_eq_self.mpr hall]
          simp
      | false =>
          have hany2 : (L.any fun c2 => c2.id == cid) = true := by
            simpa [List.any_cons, hb] using hany
          rw [List.filter_cons, if_pos (by simp [bne, hb])]
          have hlen := ih hnd.2 hany2
          simp only [List.length_cons]
          omega

theorem cleanupLoop_len (interfaces : List Interface) (d : Device) :
    ∀ (l : List (Interface × Cable)) (st : CSt),
      (st.cables.map Cable.id).Nodup →
      (cleanupLoop interfaces d l st).notes.length +
        (cleanupLoop interfaces d l st).cables.length =
      st.notes.length + st.cables.length := by
  intro l
  induction l with
  | nil => intro st _; rfl
  | cons x rest ih =>
      intro st hnd
      obtain ⟨i, c⟩ := x
      unfold cleanupLoop
      by_cases hpres : (st.cables.any fun c2 => c2.id == c.id) = true
      · rw [if_pos hpres]
        have hsub : ((st.cables.filter fun c2 => c2.id != c.id).map Cable.id).Nodup :=
          hnd.sublist ((List.filter_sublist st.cables).map Cable.id)
        have hlen := filter_ne_id_length c.id st.cables hnd hpres
        have := ih { st with
          cables := st.cables.filter fun c2 => c2.id != c.id
          notes := st.notes ++
            [.deletedOldCable d.name (termName interfaces c.aId) (termName interfaces c.bId)] }
          hsub
        simp only [List.length_append, List.length_cons, List.length_nil] at this ⊢
        omega
      · rw [if_neg hpres]
        exact ih st hnd

theorem cleanupLoop_names (interfaces : List Interface) (d : Device) :
    ∀ (l : List (Interface × Cable)) (st : CSt),
      (cleanupLoop interfaces d l st).names = st.names := by
  intro l
  induction l with
  | nil => intro st; rfl
  | cons x rest ih =>
      intro st
      obtain ⟨i, c⟩ := x
      unfold cleanupLoop
      by_cases hpres : (st.cables.any fun c2 => c2.id == c.id) = true
      · rw [if_pos hpres, ih]
      · rw [if_neg hpres, ih]

theorem cableOf_eq_of_touches (cables : List Cable) (iid : Nat) (c : Cable)
    (hinv : OneCableInv cables) (hmem : c ∈ cables)
    (htouch : (c.aId == iid || c.bId == iid) = true) :
    cableOf cables iid = some c := by
  induction cables with
  | nil => exact absurd hmem (List.not_mem_nil c)
  | cons a l ih =>
      rw [OneCableInv, List.pairwise_cons] at hinv
      unfold cableOf
      cases hha : (a.aId == iid || a.bId == iid) with
      | true =>
          rw [List.find?_cons_of_pos l hha]
          rcases List.mem_cons.mp hmem with rfl | hcl
          · rfl
          · exfalso
            have hd := hinv.1 c hcl
            rw [disjointEnds] at hd
            have h1 : a.aId = iid ∨ a.bId = iid := by
              rcases Bool.or_eq_true_iff.mp hha with h | h
              · exact Or.inl (by simpa using h)
              · exact Or.inr (by simpa using h)
            have h2 : c.aId = iid ∨ c.bId = iid := by
              rcases Bool.or_eq_true_iff.mp htouch with h | h
              · exact Or.inl (by simpa using h)
              · exact Or.inr (by simpa using h)
            rcases h1 with h1 | h1 <;> rcases h2 with h2 | h2 <;>
              simp [h1, h2, h1.trans h2.symm] at hd
      | false =>
          rw [List.find?_cons_of_neg l (by simp [hha])]
          rcases List.mem_cons.mp hmem with rfl | hcl
          · rw [htouch] at hha
            exact absurd hha (by simp)
          · exact ih hinv.2 hcl

/-- C5: the cleanup pass deletes exactly the cables captured for the
interfaces of the device that hold a cable but whose name was not
reported this run; one notification is emitted per actual deletion (an
entry whose cable is already gone is skipped silently, adding neither a
note nor a deletion); the name accumulator is untouched; and afterwards
no unreported interface of the device holds a cable. -/
theorem c5_cleanup_pass (interfaces : List Interface) (d : Device) (st : CSt)
    (hids : (st.cables.map Cable.id).Nodup)
    (hinv : OneCableInv st.cables) :
    (removeOldCables interfaces d st).cables =
      st.cables.filter (fun cb => !((staleList interfaces d st).any fun x => x.2.id == cb.id)) ∧
    (removeOldCables interfaces d st).notes.length +
        (removeOldCables interfaces d st).cables.length =
      st.notes.length + st.cables.length ∧
    (removeOldCables interfaces d st).names = st.names ∧
    ∀ i ∈ interfaces, i.deviceId = d.id → st.names.contains i.name = false →
      cableOf (removeOldCables interfaces d st).cables i.id = none := by
  refine ⟨cleanupLoop_cables interfaces d _ st, cleanupLoop_len interfaces d _ st hids,
    cleanupLoop_names interfaces d _ st, ?_⟩
  intro i hi hdev hname
  rw [removeOldCables, cleanupLoop_cables interfaces d _ st, cableOf, List.find?_eq_none]
  intro cb hcbmem htouch
  rw [List.mem_filter] at hcbmem
  obtain ⟨hcbst, hnotany⟩ := hcbmem
  have hfound : cableOf st.cables i.id = some cb :=
    cableOf_eq_of_touches st.cables i.id cb hinv hcbst htouch
  have hstale : (i, cb) ∈ staleList interfaces d st := by
    rw [staleList, List.mem_filterMap]
    refine ⟨i, hi, ?_⟩
    have hnm : i.name ∉ st.names := by simpa using hname
    rw [if_pos (by simp [hdev, hnm]), hfound]
    rfl
  have hany : ((staleList interfaces d st).any fun x => x.2.id == cb.id) = true :=
    List.any_eq_true.mpr ⟨(i, cb), hstale, by simp⟩
  rw [hany] at hnotany
  simp at hnotany

/-- Witness for C5 at a concrete store: device D has interfaces eth0
and eth1 cabled together, the run reported no local interfaces, and the
cleanup pass removes the cable, emits one note, and leaves eth0 without
a cable. -/
theorem c5_witness :
    (removeOldCables [⟨1, 1, "eth0", "", none, TYPE_OTHER⟩, ⟨2, 1, "eth1", "", none, TYPE_OTHER⟩]
        ⟨1, "D"⟩ ⟨[⟨10, 1, 2⟩], 11, [], []⟩).cables =
      ([⟨10, 1, 2⟩] : List Cable).filter (fun cb =>
        !((staleList [⟨1, 1, "eth0", "", none, TYPE_OTHER⟩, ⟨2, 1, "eth1", "", none, TYPE_OTHER⟩]
            ⟨1, "D"⟩ ⟨[⟨10, 1, 2⟩], 11, [], []⟩).any fun x => x.2.id == cb.id)) ∧
    (removeOldCables [⟨1, 1, "eth0", "", none, TYPE_OTHER⟩, ⟨2, 1, "eth1", "", none, TYPE_OTHER⟩]
        ⟨1, "D"⟩ ⟨[⟨10, 1, 2⟩], 11, [], []⟩).notes.length +
      (removeOldCables [⟨1, 1, "eth0", "", none, TYPE_OTHER⟩, ⟨2, 1, "eth1", "", none, TYPE_OTHER⟩]
        ⟨1, "D"⟩ ⟨[⟨10, 1, 2⟩], 11, [], []⟩).cables.length = 0 + 1 ∧
    cableOf (removeOldCables [⟨1, 1, "eth0", "", none, TYPE_OTHER⟩, ⟨2, 1, "eth1", "", none, TYPE_OTHER⟩]
        ⟨1, "D"⟩ ⟨[⟨10, 1, 2⟩], 11, [], []⟩).cables 1 = none := by
  have h := c5_cleanup_pass
    [⟨1, 1, "eth0", "", none, TYPE_OTHER⟩, ⟨2, 1, "eth1", "", none, TYPE_OTHER⟩]
    ⟨1, "D"⟩ ⟨[⟨10, 1, 2⟩], 11, [], []⟩ (by decide) (by decide)
  exact ⟨h.1, h.2.1, h.2.2.2 ⟨1, 1, "eth0", "", none, TYPE_OTHER⟩ (by decide) rfl (by decide)⟩

theorem recable_names (devices : List Device) (interfaces : List Interface) (warn : Bool)
    (d : Device) (st : CSt) (names : List String) (li : Interface)
    (stale : Option (Cable × Interface × Device)) (r : Neighbor) (st₁ : CSt)
    (h : recable devices interfaces warn d st names li stale r = some st₁) :
    st₁.names = names := by
  unfold recable at h
  split at h
  · exact absurd h (by simp)
  · injection h with h
    subst h
    rfl
  · split at h
    · exact absurd h (by simp)
    · injection h with h
      subst h
      rfl
    · injection h with h
      subst h
      rfl

theorem processEntry_names (devices : List Device) (interfaces : List Interface) (warn : Bool)
    (d : Device) (st : CSt) (e : NeighborEntry) (st₁ : CSt)
    (h : processEntry devices interfaces warn d st e = some st₁) :
    st₁.names = st.names ++ [e.localIface] := by
  unfold processEntry at h
  split at h
  · exact absurd h (by simp)
  · split at h
    · exact absurd h (by simp)
    · injection h with h
      subst h
      rfl
    · split at h
      · exact recable_names _ _ _ _ _ _ _ _ _ _ h
      · split at h
        · exact absurd h (by simp)
        · split at h
          · exact absurd h (by simp)
          · split at h
            · injection h with h
              subst h
              rfl
            · exact recable_names _ _ _ _ _ _ _ _ _ _ h

theorem processEntries_names (devices : List Device) (interfaces : List Interface)
    (warn : Bool) (d : Device) :
    ∀ (es : List NeighborEntry) (st st₁ : CSt),
      processEntries devices interfaces warn d st es = some st₁ →
      st₁.names = st.names ++ es.map NeighborEntry.localIface := by
  intro es
  induction es with
  | nil =>
      intro st st₁ h
      unfold processEntries at h
      injection h with h
      subst h
      simp
  | cons e es ih =>
      intro st st₁ h
      unfold processEntries at h
      cases hpe : processEntry devices interfaces warn d st e with
      | none => rw [hpe] at h; exact absurd h (by simp)
      | some st₂ =>
          rw [hpe] at h
          have h2 := ih st₂ st₁ h
          rw [h2, processEntry_names devices interfaces warn d st e st₂ hpe]
          simp

theorem removed_cable_has_stale_end (interfaces : List Interface) (d : Device) (st : CSt)
    (hids : (st.cables.map Cable.id).Nodup) :
    ∀ c ∈ st.cables, c ∉ (removeOldCables interfaces d st).cables →
      ∃ i ∈ interfaces, i.deviceId = d.id ∧ (c.aId = i.id ∨ c.bId = i.id) ∧
        st.names.contains i.name = false := by
  intro c hc hrem
  rw [removeOldCables, cleanupLoop_cables interfaces d _ st] at hrem
  have hany : ((staleList interfaces d st).any fun x => x.2.id == c.id) = true := by
    cases hb : ((staleList interfaces d st).any fun x => x.2.id == c.id) with
    | true => rfl
    | false =>
        exact absurd (List.mem_filter.mpr ⟨hc, by rw [hb]; rfl⟩) hrem
  obtain ⟨x, hxmem, hxid⟩ := List.any_eq_true.mp hany
  obtain ⟨i, cb⟩ := x
  rw [staleList, List.mem_filterMap] at hxmem
  obtain ⟨i2, hi2, hf⟩ := hxmem
  by_cases hcond : (i2.deviceId == d.id && !(st.names.contains i2.name)) = true
  · rw [if_pos hcond] at hf
    cases hco : cableOf st.cables i2.id with
    | none => rw [hco] at hf; exact absurd hf (by simp)
    | some cb2 =>
        rw [hco] at hf
        have hpair : i2 = i ∧ cb2 = cb := by
          have := Option.some.inj hf
          exact ⟨congrArg Prod.fst this, congrArg Prod.snd this⟩
        obtain ⟨rfl, rfl⟩ := hpair
        have hcbmem : cb2 ∈ st.cables := List.mem_of_find?_eq_some hco
        have hcbid : cb2.id = c.id := by simpa using hxid
        have hcbc : cb2 = c := List.inj_on_of_nodup_map hids hcbmem hc hcbid
        subst hcbc
        have htouch := List.find?_some hco
        rw [Bool.and_eq_true] at hcond
        refine ⟨i2, hi2, by simpa using hcond.1, ?_, by simpa using hcond.2⟩
        rcases Bool.or_eq_true_iff.mp htouch with ht | ht
        · exact Or.inl (by simpa using ht)
        · exact Or.inr (by simpa using ht)
  · rw [if_neg hcond] at hf
    exact absurd hf (by simp)

/-- C9 (amended): every local interface name of the report is recorded
in the reported-names list no matter how its entry is handled, and the
cleanup pass only deletes a cable that has a termination on an
unreported interface of the device; a reported interface may therefore
still lose its cable, but only through the unreported far end of the
same cable. -/
theorem c9_names_recorded_and_cleanup_scope
    (devices : List Device) (interfaces : List Interface) (warn : Bool) (d : Device) :
    (∀ (es : List NeighborEntry) (st st₁ : CSt),
       processEntries devices interfaces warn d st es = some st₁ →
       st₁.names = st.names ++ es.map NeighborEntry.localIface) ∧
    (∀ st : CSt, (st.cables.map Cable.id).Nodup →
       ∀ c ∈ st.cables, c ∉ (removeOldCables interfaces d st).cables →
         ∃ i ∈ interfaces, i.deviceId = d.id ∧ (c.aId = i.id ∨ c.bId = i.id) ∧
           st.names.contains i.name = false) :=
  ⟨processEntries_names devices interfaces warn d,
   fun st hids => removed_cable_has_stale_end interfaces d st hids⟩

/-- C9 counterexample: interfaces A and B of device D are cabled
together, the report names A (with an unresolvable remote) but not B;
the entry is skipped, yet the cleanup pass selects B and deletes the
shared cable, so the reported interface A loses its cable. -/
theorem c9_counterexample_reported_iface_loses_cable :
    cableOf [⟨10, 1, 2⟩] 1 = some ⟨10, 1, 2⟩ ∧
    "A" ∈ ([⟨"A", [⟨"X", "Y"⟩]⟩] : List NeighborEntry).map NeighborEntry.localIface ∧
    runCable [⟨1, "D"⟩]
      [⟨1, 1, "A", "", none, TYPE_OTHER⟩, ⟨2, 1, "B", "", none, TYPE_OTHER⟩] false
      ⟨[⟨10, 1, 2⟩], 11, [], []⟩ [(⟨1, "D"⟩, [⟨"A", [⟨"X", "Y"⟩]⟩])] =
      some ⟨[], 11, [.deletedOldCable "D" (some "A") (some "B")], ["A"]⟩ := by
  refine ⟨by decide, by decide, by decide⟩

/-- Witness for C9 at a concrete store: the report name A is recorded
even though its entry was skipped, and the one cable the cleanup pass
deletes has its far end on the unreported interface B. -/
theorem c9_witness :
    (⟨[⟨10, 1, 2⟩], 11, [], ["A"]⟩ : CSt).names =
      ([] : List String) ++ ([⟨"A", [⟨"X", "Y"⟩]⟩] : List NeighborEntry).map NeighborEntry.localIface ∧
    ∃ i ∈ ([⟨1, 1, "A", "", none, TYPE_OTHER⟩, ⟨2, 1, "B", "", none, TYPE_OTHER⟩] : List Interface),
      i.deviceId = (⟨1, "D"⟩ : Device).id ∧
      ((⟨10, 1, 2⟩ : Cable).aId = i.id ∨ (⟨10, 1, 2⟩ : Cable).bId = i.id) ∧
      (⟨[⟨10, 1, 2⟩], 11, [], ["A"]⟩ : CSt).names.contains i.name = false := by
  have h := c9_names_recorded_and_cleanup_scope [⟨1, "D"⟩]
    [⟨1, 1, "A", "", none, TYPE_OTHER⟩, ⟨2, 1, "B", "", none, TYPE_OTHER⟩] false ⟨1, "D"⟩
  exact ⟨h.1 [⟨"A", [⟨"X", "Y"⟩]⟩] ⟨[⟨10, 1, 2⟩], 11, [], []⟩
           ⟨[⟨10, 1, 2⟩], 11, [], ["A"]⟩ (by decide),
         h.2 ⟨[⟨10, 1, 2⟩], 11, [], ["A"]⟩ (by decide) ⟨10, 1, 2⟩ (by decide) (by decide)⟩

theorem getUnique_missing_of (p : α → Bool) (l : List α) (h : ∀ a ∈ l, p a = false) :
    getUnique p l = .missing := by
  unfold getUnique
  rw [List.filter_eq_nil_iff.mpr (fun a ha => by simp [h a ha])]

theorem processSnap_creates (rm : String → String → Bool) (pat : String) (d : Device) :
    ∀ (snap : List SnapEntry) (ifs : List Interface) (n : Nat) (notes : List Note),
      (∀ i ∈ ifs, i.deviceId = d.id → i.name ∉ snap.map SnapEntry.name) →
      (snap.map SnapEntry.name).Nodup →
      ∃ l : List Interface,
        processSnap rm pat d ⟨ifs, n, notes⟩ snap =
          some ⟨ifs ++ l, n + l.length,
            notes ++ (snap.filter fun e => !(ignoredBy rm pat e.name)).map
              (fun e => Note.createdInterface d.name e.name)⟩ ∧
        l.map ifaceData = (snap.filter fun e => !(ignoredBy rm pat e.name)).map
          (fun e => (d.id, e.name, e.description, some e.macAddress, TYPE_OTHER)) := by
  intro snap
  induction snap with
  | nil =>
      intro ifs n notes hno hnd
      exact ⟨[], by simp [processSnap], by simp⟩
  | cons e es ih =>
      intro ifs n notes hno hnd
      rw [List.map_cons, List.nodup_cons] at hnd
      cases hig : ignoredBy rm pat e.name with
      | true =>
          have hstep : processIface rm pat d ⟨ifs, n, notes⟩ e = some ⟨ifs, n, notes⟩ := by
            unfold processIface
            simp [hig]
          obtain ⟨l, hrun, hdata⟩ := ih ifs n notes
            (fun i hi hd hmem => hno i hi hd (List.mem_cons_of_mem _ hmem)) hnd.2
          refine ⟨l, ?_, ?_⟩
          · unfold processSnap
            simp only [hstep]
            rw [hrun, List.filter_cons]
            simp [hig]
          · rw [List.filter_cons]
            simpa [hig] using hdata
      | false =>
          have hmiss : getUnique (localKey d.id e.name) ifs = .missing := by
            apply getUnique_missing_of
            intro a ha
            by_cases hd : a.deviceId = d.id
            · have hmem := hno a ha hd
              have hne : a.name ≠ e.name := fun hh => hmem (by rw [hh]; exact List.mem_cons_self _ _)
              simp [localKey, hne]
            · simp [localKey, hd]
          have hstep : processIface rm pat d ⟨ifs, n, notes⟩ e =
              some ⟨ifs ++ [⟨n, d.id, e.name, e.description, normalizeMac e.macAddress, TYPE_OTHER⟩],
                    n + 1, notes ++ [.createdInterface d.name e.name]⟩ := by
            unfold processIface
            simp [hig, hmiss]
          obtain ⟨l, hrun, hdata⟩ := ih
            (ifs ++ [⟨n, d.id, e.name, e.description, normalizeMac e.macAddress, TYPE_OTHER⟩])
            (n + 1) (notes ++ [.createdInterface d.name e.name])
            (by
              intro i hi hd
              rcases List.mem_append.mp hi with h | h
              · exact fun hmem => hno i h hd (List.mem_cons_of_mem _ hmem)
              · have hi0 : i = ⟨n, d.id, e.name, e.description, normalizeMac e.macAddress, TYPE_OTHER⟩ :=
                  List.mem_singleton.mp h
                subst hi0
                exact hnd.1)
            hnd.2
          refine ⟨⟨n, d.id, e.name, e.description, normalizeMac e.macAddress, TYPE_OTHER⟩ :: l, ?_, ?_⟩
          · unfold processSnap
            simp only [hstep]
            rw [hrun, List.filter_cons]
            simp [hig, List.append_assoc, Nat.add_comm, Nat.add_left_comm, Nat.add_assoc]
          · rw [List.filter_cons]
            simp only [hig, Bool.not_false, ite_true, if_true, List.map_cons]
            rw [hdata]
            simp [ifaceData, normalizeMac_id]

/-- C6: on a device with no existing interfaces, one run creates
exactly one interface per snapshot entry that the ignore pattern does
not match, with the generic default type, description and MAC address
taken from the snapshot, and exactly one created notification per
created interface. -/
theorem c6_fresh_device_creates_one_per_entry (rm : String → String → Bool) (pat : String)
    (d : Device) (snap : List SnapEntry) (ifs : List Interface) (n : Nat)
    (hfresh : ∀ i ∈ ifs, i.deviceId ≠ d.id)
    (hnd : (snap.map SnapEntry.name).Nodup) :
    ∃ l : List Interface,
      runInterfaces rm pat ⟨ifs, n, []⟩ [(d, snap)] =
        some ⟨ifs ++ l, n + l.length,
          (snap.filter fun e => !(ignoredBy rm pat e.name)).map
            (fun e => Note.createdInterface d.name e.name)⟩ ∧
      l.map ifaceData = (snap.filter fun e => !(ignoredBy rm pat e.name)).map
        (fun e => (d.id, e.name, e.description, some e.macAddress, TYPE_OTHER)) := by
  obtain ⟨l, hrun, hdata⟩ := processSnap_creates rm pat d snap ifs n []
    (fun i hi hd => absurd hd (hfresh i hi)) hnd
  refine ⟨l, ?_, hdata⟩
  unfold runInterfaces
  simp only [hrun]
  rfl

/-- Witness for C6 at the spec scenario: device D with no prior
interfaces, snapshot entry eth0 with description up and a MAC, and an
empty ignore pattern create exactly the one interface with one created
notification. -/
theorem c6_witness :
    ∃ l : List Interface,
      runInterfaces (fun _ _ => false) "" ⟨[], 0, []⟩
        [(⟨1, "D"⟩, [⟨"eth0", "up", "AA:BB:CC:DD:EE:FF"⟩])] =
        some ⟨[] ++ l, 0 + l.length,
          (([⟨"eth0", "up", "AA:BB:CC:DD:EE:FF"⟩] : List SnapEntry).filter
            (fun e => !(ignoredBy (fun _ _ => false) "" e.name))).map
            (fun e => Note.createdInterface (Device.mk 1 "D").name e.name)⟩ ∧
      l.map ifaceData = (([⟨"eth0", "up", "AA:BB:CC:DD:EE:FF"⟩] : List SnapEntry).filter
            (fun e => !(ignoredBy (fun _ _ => false) "" e.name))).map
        (fun e => ((Device.mk 1 "D").id, e.name, e.description, some e.macAddress, TYPE_OTHER)) :=
  c6_fresh_device_creates_one_per_entry (fun _ _ => false) "" ⟨1, "D"⟩
    [⟨"eth0", "up", "AA:BB:CC:DD:EE:FF"⟩] [] 0
    (fun i hi => absurd hi (List.not_mem_nil i)) (by decide)

theorem Preserved_refl (ifs : List Interface) : Preserved ifs ifs :=
  fun j hj => ⟨j, hj, rfl, rfl, rfl, rfl, rfl⟩

theorem Preserved_trans {a b c : List Interface} (h1 : Preserved a b) (h2 : Preserved b c) :
    Preserved a c := by
  intro j hj
  obtain ⟨j2, hj2, e1, e2, e3, e4, e5⟩ := h1 j hj
  obtain ⟨j3, hj3, f1, f2, f3, f4, f5⟩ := h2 j2 hj2
  exact ⟨j3, hj3, f1.trans e1, f2.trans e2, f3.trans e3, f4.trans e4, f5.trans e5⟩

theorem processIface_preserves (rm : String → String → Bool) (pat : String) (d : Device)
    (st : ISt) (e : SnapEntry) (st₁ : ISt)
    (h : processIface rm pat d st e = some st₁) :
    Preserved st.interfaces st₁.interfaces := by
  unfold processIface at h
  split at h
  · injection h with h
    subst h
    exact Preserved_refl _
  · split at h
    · exact absurd h (by simp)
    · injection h with h
      subst h
      exact fun j hj => ⟨j, List.mem_append_left _ hj, rfl, rfl, rfl, rfl, rfl⟩
    · rename_i i hfound
      dsimp only at h
      split at h
      · injection h with h
        subst h
        intro j hj
        refine ⟨if j.id == i.id then { j with description := e.description } else j,
          List.mem_map_of_mem _ hj, ?_, ?_, ?_, ?_, ?_⟩ <;>
          by_cases hji : (j.id == i.id) = true <;> simp [hji]
      · injection h with h
        subst h
        exact Preserved_refl _

theorem processSnap_preserves (rm : String → String → Bool) (pat : String) (d : Device) :
    ∀ (snap : List SnapEntry) (st st₁ : ISt),
      processSnap rm pat d st snap = some st₁ →
      Preserved st.interfaces st₁.interfaces := by
  intro snap
  induction snap with
  | nil =>
      intro st st₁ h
      injection h with h
      subst h
      exact Preserved_refl _
  | cons e es ih =>
      intro st st₁ h
      unfold processSnap at h
      cases hpe : processIface rm pat d st e with
      | none => rw [hpe] at h; exact absurd h (by simp)
      | some st₂ =>
          rw [hpe] at h
          exact Preserved_trans (processIface_preserves rm pat d st e st₂ hpe) (ih st₂ st₁ h)

theorem runInterfaces_preserves (rm : String → String → Bool) (pat : String) :
    ∀ (jobs : List (Device × List SnapEntry)) (st st₁ : ISt),
      runInterfaces rm pat st jobs = some st₁ →
      Preserved st.interfaces st₁.interfaces := by
  intro jobs
  induction jobs with
  | nil =>
      intro st st₁ h
      injection h with h
      subst h
      exact Preserved_refl _
  | cons j jobs ih =>
      intro st st₁ h
      obtain ⟨d, snap⟩ := j
      unfold runInterfaces at h
      cases hps : processSnap rm pat d st snap with
      | none => rw [hps] at h; exact absurd h (by simp)
      | some st₂ =>
          rw [hps] at h
          exact Preserved_trans (processSnap_preserves rm pat d snap st st₂ hps) (ih st₂ st₁ h)

/-- C8: on an existing interface whose persisted description differs
from the live one, the reconciler overwrites only the description and
emits exactly one updated notification, leaving id, device, name, type
and MAC of every interface unchanged; and a whole run never deletes an
interface (every interface survives with all fields except the
description intact). -/
theorem c8_update_overwrites_only_description :
    (∀ (rm : String → String → Bool) (pat : String) (d : Device) (st : ISt) (e : SnapEntry)
       (i : Interface),
       ignoredBy rm pat e.name = false →
       getUnique (localKey d.id e.name) st.interfaces = .found i →
       i.description ≠ e.description →
       ∃ st₁, processIface rm pat d st e = some st₁ ∧
         st₁.nextId = st.nextId ∧
         st₁.notes = st.notes ++ [.updatedInterface d.name e.name i.description e.description] ∧
         List.Forall₂ (updFrame i.id e.description) st.interfaces st₁.interfaces) ∧
    (∀ (rm : String → String → Bool) (pat : String) (st st₁ : ISt)
       (jobs : List (Device × List SnapEntry)),
       runInterfaces rm pat st jobs = some st₁ → Preserved st.interfaces st₁.interfaces) := by
  constructor
  · intro rm pat d st e i hig hfound hdiff
    have hbne : (i.description != e.description) = true := by simpa using hdiff
    refine ⟨{ st with
              interfaces := st.interfaces.map (fun j =>
                if j.id == i.id then { j with description := e.description } else j)
              notes := st.notes ++
                [.updatedInterface d.name e.name i.description e.description] }, ?_, rfl, rfl, ?_⟩
    · unfold processIface
      simp [hig, hfound, hbne]
    · rw [List.forall₂_map_right_iff, List.forall₂_same]
      intro j hj
      by_cases hji : j.id = i.id
      · simp [updFrame, hji]
      · simp [updFrame, hji]
  · intro rm pat st st₁ jobs h
    exact runInterfaces_preserves rm pat jobs st st₁ h

/-- Witness for C8 at a concrete store: eth0 exists with description
old differing from the live description up; only its description
changes and one updated notification is emitted, and the trivial run
preserves every interface. -/
theorem c8_witness :
    (∃ st₁, processIface (fun _ _ => false) "" ⟨1, "D"⟩
        ⟨[⟨7, 1, "eth0", "old", some "AA", TYPE_OTHER⟩], 8, []⟩ ⟨"eth0", "up", "AA"⟩ =
          some st₁ ∧
        st₁.nextId = (⟨[⟨7, 1, "eth0", "old", some "AA", TYPE_OTHER⟩], 8, []⟩ : ISt).nextId ∧
        st₁.notes = (⟨[⟨7, 1, "eth0", "old", some "AA", TYPE_OTHER⟩], 8, []⟩ : ISt).notes ++
          [.updatedInterface "D" "eth0" "old" "up"] ∧
        List.Forall₂ (updFrame 7 "up")
          (⟨[⟨7, 1, "eth0", "old", some "AA", TYPE_OTHER⟩], 8, []⟩ : ISt).interfaces
          st₁.interfaces) ∧
    Preserved [⟨7, 1, "eth0", "old", some "AA", TYPE_OTHER⟩]
      [⟨7, 1, "eth0", "old", some "AA", TYPE_OTHER⟩] := by
  constructor
  · exact c8_update_overwrites_only_description.1 (fun _ _ => false) "" ⟨1, "D"⟩
      ⟨[⟨7, 1, "eth0", "old", some "AA", TYPE_OTHER⟩], 8, []⟩ ⟨"eth0", "up", "AA"⟩
      ⟨7, 1, "eth0", "old", some "AA", TYPE_OTHER⟩ (by decide) (by decide) (by decide)
  · exact c8_update_overwrites_only_description.2 (fun _ _ => false) ""
      ⟨[⟨7, 1, "eth0", "old", some "AA", TYPE_OTHER⟩], 8, []⟩
      ⟨[⟨7, 1, "eth0", "old", some "AA", TYPE_OTHER⟩], 8, []⟩ [] rfl

theorem getUnique_found_elim {α : Type} {p : α → Bool} {l : List α} {a : α}
    (h : getUnique p l = .found a) : a ∈ l ∧ p a = true := by
  unfold getUnique at h
  cases hf : l.filter p with
  | nil => rw [hf] at h; exact absurd h (by simp)
  | cons b t =>
      rw [hf] at h
      cases t with
      | nil =>
          injection h with hba
          have hb : b ∈ l.filter p := by rw [hf]; exact List.mem_cons_self _ _
          rw [List.mem_filter] at hb
          exact hba ▸ hb
      | cons c t2 => exact absurd h (by simp)

theorem getUnique_missing_elim {α : Type} {p : α → Bool} {l : List α}
    (h : getUnique p l = .missing) : ∀ a ∈ l, p a = false := by
  intro a ha
  unfold getUnique at h
  cases hf : l.filter p with
  | nil =>
      cases hp : p a with
      | false => rfl
      | true =>
          have hmem : a ∈ l.filter p := List.mem_filter.mpr ⟨ha, hp⟩
          rw [hf] at hmem
          exact absurd hmem (List.not_mem_nil a)
  | cons b t =>
      rw [hf] at h
      cases t with
      | nil => exact absurd h (by simp)
      | cons c t2 => exact absurd h (by simp)

theorem filter_key_single (ifs : List Interface) (i : Interface)
    (hnd : (ifs.map pairKey).Nodup) (hi : i ∈ ifs) :
    ifs.filter (localKey i.deviceId i.name) = [i] := by
  induction ifs with
  | nil => exact absurd hi (List.not_mem_nil i)
  | cons a t ih =>
      rw [List.map_cons, List.nodup_cons] at hnd
      rcases List.mem_cons.mp hi with rfl | hit
      · rw [List.filter_cons, if_pos (by simp [localKey])]
        have hall : ∀ x ∈ t, localKey i.deviceId i.name x = false := by
          intro x hx
          by_cases h1 : x.deviceId = i.deviceId
          · by_cases h2 : x.name = i.name
            · exfalso
              apply hnd.1
              have hpk : pairKey x = pairKey i := by simp [pairKey, h1, h2]
              rw [← hpk]
              exact List.mem_map_of_mem pairKey hx
            · simp [localKey, h2]
          · simp [localKey, h1]
        rw [List.filter_eq_nil_iff.mpr (fun x hx => by simp [hall x hx])]
      · have hne : localKey i.deviceId i.name a = false := by
          by_cases h1 : a.deviceId = i.deviceId
          · by_cases h2 : a.name = i.name
            · exfalso
              apply hnd.1
              have hpk : pairKey a = pairKey i := by simp [pairKey, h1, h2]
              rw [hpk]
              exact List.mem_map_of_mem pairKey hit
            · simp [localKey, h2]
          · simp [localKey, h1]
        rw [List.filter_cons, if_neg (by simp [hne])]
        exact ih hnd.2 hit

theorem getUnique_found_key (ifs : List Interface) (i : Interface) (did : Nat) (nm : String)
    (hnd : (ifs.map pairKey).Nodup) (hi : i ∈ ifs) (hd : i.deviceId = did) (hn : i.name = nm) :
    getUnique (localKey did nm) ifs = .found i := by
  subst hd
  subst hn
  unfold getUnique
  rw [filter_key_single ifs i hnd hi]

theorem processIface_establish (rm : String → String → Bool) (pat : String) (d : Device)
    (st : ISt) (e : SnapEntry) (st₁ : ISt)
    (hwf : IStWF st) (h : processIface rm pat d st e = some st₁) :
    IStWF st₁ ∧
    (ignoredBy rm pat e.name = false → descOk st₁.interfaces d e) ∧
    (∀ (d2 : Device) (e2 : SnapEntry), (d2.id ≠ d.id ∨ e2.name ≠ e.name) →
      descOk st.interfaces d2 e2 → descOk st₁.interfaces d2 e2) := by
  obtain ⟨hbound, hids, hkeys⟩ := hwf
  unfold processIface at h
  split at h
  case isTrue hig =>
    injection h with h
    subst h
    refine ⟨⟨hbound, hids, hkeys⟩, ?_, fun _ _ _ hd => hd⟩
    intro hig2
    rw [hig2] at hig
    exact absurd hig (by simp)
  case isFalse hig =>
    split at h
    · exact absurd h (by simp)
    · rename_i hmiss
      injection h with h
      subst h
      have hnotkey := getUnique_missing_elim hmiss
      refine ⟨⟨?_, ?_, ?_⟩, ?_, ?_⟩
      · intro i hi
        rcases List.mem_append.mp hi with hm | hm
        · exact Nat.lt_succ_of_lt (hbound i hm)
        · rw [List.mem_singleton.mp hm]
          exact Nat.lt_succ_self _
      · rw [List.map_append]
        refine List.nodup_append.mpr ⟨hids, by simp, ?_⟩
        intro x hx hx2
        simp only [List.map_cons, List.map_nil, List.mem_singleton] at hx2
        subst hx2
        obtain ⟨i, hi, hix⟩ := List.mem_map.mp hx
        exact absurd (hix ▸ hbound i hi) (by simp)
      · rw [List.map_append]
        refine List.nodup_append.mpr ⟨hkeys, by simp, ?_⟩
        intro x hx hx2
        simp only [List.map_cons, List.map_nil, List.mem_singleton] at hx2
        subst hx2
        obtain ⟨i, hi, hix⟩ := List.mem_map.mp hx
        have hkf := hnotkey i hi
        rw [pairKey] at hix
        have h1 : i.deviceId = d.id := congrArg Prod.fst hix
        have h2 : i.name = e.name := congrArg Prod.snd hix
        rw [localKey, h1, h2] at hkf
        simp at hkf
      · intro _
        exact ⟨⟨st.nextId, d.id, e.name, e.description, normalizeMac e.macAddress, TYPE_OTHER⟩,
          List.mem_append_right _ (List.mem_singleton.mpr rfl), rfl, rfl, rfl⟩
      · intro d2 e2 _ hd2
        obtain ⟨j, hj, hjd, hjn, hjdesc⟩ := hd2
        exact ⟨j, List.mem_append_left _ hj, hjd, hjn, hjdesc⟩
    · rename_i i hfound
      have himem := (getUnique_found_elim hfound).1
      have hkey : i.deviceId = d.id ∧ i.name = e.name := by
        have hk := (getUnique_found_elim hfound).2
        rw [localKey] at hk
        rw [Bool.and_eq_true] at hk
        exact ⟨by simpa using hk.1, by simpa using hk.2⟩
      dsimp only at h
      split at h
      case isTrue hdiff =>
        injection h with h
        subst h
        have hidpres : ∀ j : Interface,
            (if (j.id == i.id) = true then { j with description := e.description } else j).id =
              j.id := by
          intro j
          by_cases hji : (j.id == i.id) = true <;> simp [hji]
        have hkeypres : ∀ j : Interface,
            pairKey (if (j.id == i.id) = true then { j with description := e.description } else j) =
              pairKey j := by
          intro j
          by_cases hji : (j.id == i.id) = true <;> simp [pairKey, hji]
        refine ⟨⟨?_, ?_, ?_⟩, ?_, ?_⟩
        · intro j hj
          obtain ⟨j0, hj0, hjeq⟩ := List.mem_map.mp hj
          rw [← hjeq]
          rw [show (if (j0.id == i.id) = true then
              { j0 with description := e.description } else j0).id = j0.id from hidpres j0]
          exact hbound j0 hj0
        · rw [List.map_map]
          have hcong : ∀ j ∈ st.interfaces,
              (Interface.id ∘ fun j2 => if (j2.id == i.id) = true then
                { j2 with description := e.description } else j2) j = Interface.id j := by
            intro j _
            simp only [Function.comp_apply]
            exact hidpres j
          rw [List.map_congr_left hcong]
          exact hids
        · rw [List.map_map]
          have hcong : ∀ j ∈ st.interfaces,
              (pairKey ∘ fun j2 => if (j2.id == i.id) = true then
                { j2 with description := e.description } else j2) j = pairKey j := by
            intro j _
            simp only [Function.comp_apply]
            exact hkeypres j
          rw [List.map_congr_left hcong]
          exact hkeys
        · intro _
          refine ⟨{ i with description := e.description }, ?_, hkey.1, hkey.2, rfl⟩
          have hfi : (fun j => if (j.id == i.id) = true then
              { j with description := e.description } else j) i =
              { i with description := e.description } := by simp
          rw [← hfi]
          exact List.mem_map_of_mem _ himem
        · intro d2 e2 hne hd2
          obtain ⟨j, hj, hjd, hjn, hjdesc⟩ := hd2
          have hjni : (j.id == i.id) = false := by
            cases hji : (j.id == i.id) with
            | false => rfl
            | true =>
                exfalso
                have hjeq : j = i := List.inj_on_of_nodup_map hids hj himem (by simpa using hji)
                subst hjeq
                rcases hne with hne | hne
                · exact hne (by rw [← hjd, hkey.1])
                · exact hne (by rw [← hjn, hkey.2])
          refine ⟨j, ?_, hjd, hjn, hjdesc⟩
          have hfj : (fun j2 => if (j2.id == i.id) = true then
              { j2 with description := e.description } else j2) j = j := by
            simp [hjni]
          rw [← hfj]
          exact List.mem_map_of_mem _ hj
      case isFalse hdiff =>
        injection h with h
        subst h
        have hdesc : i.description = e.description := by
          have := hdiff
          simpa using this
        exact ⟨⟨hbound, hids, hkeys⟩, fun _ => ⟨i, himem, hkey.1, hkey.2, hdesc⟩,
          fun _ _ _ hd => hd⟩

theorem processSnap_establish (rm : String → String → Bool) (pat : String) (d : Device) :
    ∀ (snap : List SnapEntry) (st st₁ : ISt),
      IStWF st → (snap.map SnapEntry.name).Nodup →
      processSnap rm pat d st snap = some st₁ →
      IStWF st₁ ∧
      (∀ e ∈ snap, ignoredBy rm pat e.name = true ∨ descOk st₁.interfaces d e) ∧
      (∀ (d2 : Device) (e2 : SnapEntry),
        (d2.id ≠ d.id ∨ e2.name ∉ snap.map SnapEntry.name) →
        descOk st.interfaces d2 e2 → descOk st₁.interfaces d2 e2) := by
  intro snap
  induction snap with
  | nil =>
      intro st st₁ hwf _ h
      injection h with h
      subst h
      exact ⟨hwf, by simp, fun _ _ _ hd => hd⟩
  | cons e es ih =>
      intro st st₁ hwf hnd h
      rw [List.map_cons, List.nodup_cons] at hnd
      unfold processSnap at h
      cases hpe : processIface rm pat d st e with
      | none => rw [hpe] at h; exact absurd h (by simp)
      | some st₂ =>
          rw [hpe] at h
          obtain ⟨hwf₂, hest, hframe⟩ := processIface_establish rm pat d st e st₂ hwf hpe
          obtain ⟨hwf₁, hest₁, hframe₁⟩ := ih st₂ st₁ hwf₂ hnd.2 h
          refine ⟨hwf₁, ?_, ?_⟩
          · intro x hx
            rcases List.mem_cons.mp hx with rfl | hxes
            · cases hig : ignoredBy rm pat x.name with
              | true => exact Or.inl rfl
              | false => exact Or.inr (hframe₁ d x (Or.inr hnd.1) (hest hig))
            · exact hest₁ x hxes
          · intro d2 e2 hcond hd2
            have hcond₂ : d2.id ≠ d.id ∨ e2.name ≠ e.name := by
              rcases hcond with hc | hc
              · exact Or.inl hc
              · exact Or.inr (fun hh => hc (by rw [hh]; exact List.mem_cons_self _ _))
            have hcond₁ : d2.id ≠ d.id ∨ e2.name ∉ es.map SnapEntry.name := by
              rcases hcond with hc | hc
              · exact Or.inl hc
              · exact Or.inr (fun hh => hc (List.mem_cons_of_mem _ hh))
            exact hframe₁ d2 e2 hcond₁ (hframe d2 e2 hcond₂ hd2)

theorem runInterfaces_establish (rm : String → String → Bool) (pat : String) :
    ∀ (jobs : List (Device × List SnapEntry)) (st st₁ : ISt),
      IStWF st →
      (∀ p ∈ jobs, ((p.2).map SnapEntry.name).Nodup) →
      (jobs.map (fun p => p.1.id)).Nodup →
      runInterfaces rm pat st jobs = some st₁ →
      IStWF st₁ ∧
      (∀ p ∈ jobs, ∀ e ∈ p.2, ignoredBy rm pat e.name = true ∨ descOk st₁.interfaces p.1 e) ∧
      (∀ (d2 : Device) (e2 : SnapEntry), (∀ p ∈ jobs, d2.id ≠ p.1.id) →
        descOk st.interfaces d2 e2 → descOk st₁.interfaces d2 e2) := by
  intro jobs
  induction jobs with
  | nil =>
      intro st st₁ hwf _ _ h
      injection h with h
      subst h
      exact ⟨hwf, by simp, fun _ _ _ hd => hd⟩
  | cons p jobs ih =>
      intro st st₁ hwf hsn hdn h
      obtain ⟨d, snap⟩ := p
      rw [List.map_cons, List.nodup_cons] at hdn
      unfold runInterfaces at h
      cases hps : processSnap rm pat d st snap with
      | none => rw [hps] at h; exact absurd h (by simp)
      | some st₂ =>
          rw [hps] at h
          obtain ⟨hwf₂, hest, hframe⟩ := processSnap_establish rm pat d snap st st₂ hwf
            (hsn (d, snap) (List.mem_cons_self _ _)) hps
          obtain ⟨hwf₁, hest₁, hframe₁⟩ := ih st₂ st₁ hwf₂
            (fun q hq => hsn q (List.mem_cons_of_mem _ hq)) hdn.2 h
          refine ⟨hwf₁, ?_, ?_⟩
          · intro q hq e he
            rcases List.mem_cons.mp hq with rfl | hqjobs
            · rcases hest e he with hig | hde
              · exact Or.inl hig
              · refine Or.inr (hframe₁ d e ?_ hde)
                intro p2 hp2 hh
                exact hdn.1 (hh ▸ List.mem_map_of_mem (fun p => p.1.id) hp2)
            · exact hest₁ q hqjobs e he
          · intro d2 e2 hcond hd2
            refine hframe₁ d2 e2 (fun q hq => hcond q (List.mem_cons_of_mem _ hq)) ?_
            exact hframe d2 e2 (Or.inl (hcond (d, snap) (List.mem_cons_self _ _))) hd2

theorem processIface_noop (rm : String → String → Bool) (pat : String) (d : Device)
    (st : ISt) (e : SnapEntry)
    (hkeys : (st.interfaces.map pairKey).Nodup)
    (hok : ignoredBy rm pat e.name = true ∨ descOk st.interfaces d e) :
    processIface rm pat d st e = some st := by
  rcases hok with hig | ⟨i, hi, hd, hn, hdesc⟩
  · unfold processIface
    simp [hig]
  · unfold processIface
    cases hig : ignoredBy rm pat e.name with
    | true => simp
    | false =>
        have hfound := getUnique_found_key st.interfaces i d.id e.name hkeys hi hd hn
        simp [hfound, hdesc]

theorem processSnap_noop (rm : String → String → Bool) (pat : String) (d : Device) :
    ∀ (snap : List SnapEntry) (st : ISt),
      (st.interfaces.map pairKey).Nodup →
      (∀ e ∈ snap, ignoredBy rm pat e.name = true ∨ descOk st.interfaces d e) →
      processSnap rm pat d st snap = some st := by
  intro snap
  induction snap with
  | nil => intro st _ _; rfl
  | cons e es ih =>
      intro st hkeys hok
      unfold processSnap
      rw [processIface_noop rm pat d st e hkeys (hok e (List.mem_cons_self _ _))]
      exact ih st hkeys (fun x hx => hok x (List.mem_cons_of_mem _ hx))

theorem runInterfaces_noop (rm : String → String → Bool) (pat : String) :
    ∀ (jobs : List (Device × List SnapEntry)) (st : ISt),
      (st.interfaces.map pairKey).Nodup →
      (∀ p ∈ jobs, ∀ e ∈ p.2, ignoredBy rm pat e.name = true ∨ descOk st.interfaces p.1 e) →
      runInterfaces rm pat st jobs = some st := by
  intro jobs
  induction jobs with
  | nil => intro st _ _; rfl
  | cons p jobs ih =>
      intro st hkeys hok
      obtain ⟨d, snap⟩ := p
      unfold runInterfaces
      rw [processSnap_noop rm pat d snap st hkeys (hok (d, snap) (List.mem_cons_self _ _))]
      exact ih st hkeys (fun q hq e he => hok q (List.mem_cons_of_mem _ hq) e he)

/-- C7: the interface reconciler is idempotent with respect to
updates.  A second run over the same devices with the same snapshots
succeeds and emits zero updated notifications (its log in fact stays
empty): after the first run every processed interface already carries
the live description. -/
theorem c7_second_run_emits_no_updates (rm : String → String → Bool) (pat : String)
    (jobs : List (Device × List SnapEntry)) (ifs : List Interface) (n : Nat) (st₁ : ISt)
    (hwf : IStWF ⟨ifs, n, []⟩)
    (hsn : ∀ p ∈ jobs, ((p.2).map SnapEntry.name).Nodup)
    (hdn : (jobs.map (fun p => p.1.id)).Nodup)
    (h1 : runInterfaces rm pat ⟨ifs, n, []⟩ jobs = some st₁) :
    ∃ st₂, runInterfaces rm pat ⟨st₁.interfaces, st₁.nextId, []⟩ jobs = some st₂ ∧
      st₂.notes.countP isUpdatedNote = 0 := by
  obtain ⟨hwf₁, hest, _⟩ := runInterfaces_establish rm pat jobs ⟨ifs, n, []⟩ st₁ hwf hsn hdn h1
  refine ⟨⟨st₁.interfaces, st₁.nextId, []⟩, ?_, rfl⟩
  exact runInterfaces_noop rm pat jobs ⟨st₁.interfaces, st₁.nextId, []⟩ hwf₁.2.2
    (fun p hp e he => hest p hp e he)

/-- Witness for C7: a first run over device D creates eth0; the second
run with the same snapshot succeeds and emits no notification at all,
in particular zero updated notifications. -/
theorem c7_witness :
    ∃ st₂, runInterfaces (fun _ _ => false) ""
        ⟨[⟨0, 1, "eth0", "up", some "AA", TYPE_OTHER⟩], 1, []⟩
        [(⟨1, "D"⟩, [⟨"eth0", "up", "AA"⟩])] = some st₂ ∧
      st₂.notes.countP isUpdatedNote = 0 :=
  c7_second_run_emits_no_updates (fun _ _ => false) "" [(⟨1, "D"⟩, [⟨"eth0", "up", "AA"⟩])]
    [] 0 ⟨[⟨0, 1, "eth0", "up", some "AA", TYPE_OTHER⟩], 1, [.createdInterface "D" "eth0"]⟩
    (by constructor
        · intro i hi
          exact absurd hi (List.not_mem_nil i)
        · exact ⟨by simp, by simp⟩)
    (by intro p hp
        rw [List.mem_singleton.mp hp]
        simp)
    (by simp)
    (by decide)


